import Mathlib

/-!
# Verification of the cross-source session reconciliation engine

Shallow embedding of `src/corrected_matching_helpers.py` (the fuzzy session
matcher and the corrected-stats builder) and of the per-session aggregation
SQL it issues, together with proofs of the reconciliation properties stated
in the specification.

Conventions of the embedding:
* a pandas DataFrame of session rows is a `List Session` (rows in frame order);
* the `matched_to_sst` / `matched_to_direct` / `session_category` columns that
  the matcher mutates are carried as a `Bool` flag next to each row
  (`true` = category `Both`, `false` = the source-only category);
* timestamps are microseconds since epoch as `Int`;
* Python/numpy floats arising in the profile ratios are modelled by `PyFloat`,
  which makes the `0/0 → NaN` behaviour of numpy scalar division explicit.
-/

/-- One session summary row, as produced by the BigQuery / Athena aggregation
queries in `fuzzy_match_sessions` (columns of `bq_df` / `sst_df`). -/
structure Session where
  ga_session_id : String
  session_start_ts : Int
  device_category : String
  device_operating_system : String
  device_browser : String
  geo_country : String
  traffic_source : String
  event_count : Nat
  has_purchase : Bool
  engagement_time_msec : Int
  deriving Repr, DecidableEq

/-- `time_window_micros = time_window_seconds * 1000000` (line 142). -/
def timeWindowMicros (time_window_seconds : Nat) : Int :=
  (time_window_seconds : Int) * 1000000

/-- The timestamp filter of the candidate selection (lines 150-151):
`session_start_ts >= sst_ts - W` and `session_start_ts <= sst_ts + W`. -/
def inWindow (W sstTs dTs : Int) : Bool :=
  decide (sstTs - W ≤ dTs) && decide (dTs ≤ sstTs + W)

/-- The attribute filter of the candidate selection (lines 158-161):
equal `device_category` and equal `geo_country`. -/
def attrsMatch (s d : Session) : Bool :=
  (d.device_category == s.device_category) && (d.geo_country == s.geo_country)

/-- A Direct row (with its `matched_to_sst` flag) passes the candidate
filters of lines 148-161 for the SST row `s`. -/
def isCandidate (W : Int) (s : Session) (dm : Session × Bool) : Bool :=
  (!dm.2) && inWindow W s.session_start_ts dm.1.session_start_ts && attrsMatch s dm.1

/-- `candidates[ts_diff] = abs(candidates[session_start_ts] - sst_ts)` (line 168). -/
def tsDiff (s d : Session) : Int :=
  |d.session_start_ts - s.session_start_ts|

/-- `candidates.nsmallest(1, ts_diff).iloc[0]` over the rows passing the
filters (lines 148-169): the candidate of minimal `ts_diff`, and among equal
diffs the one earliest in frame order (pandas `nsmallest` keeps first).
Returns its frame position together with the row, or `none` when no row
passes the filters (lines 154, 163). -/
def bestCandidate (W : Int) (s : Session) : List (Session × Bool) → Option (Nat × Session)
  | [] => none
  | dm :: rest =>
    match bestCandidate W s rest with
    | none => if isCandidate W s dm then some (0, dm.1) else none
    | some (j, d) =>
      if isCandidate W s dm then
        if tsDiff s dm.1 ≤ tsDiff s d then some (0, dm.1) else some (j + 1, d)
      else some (j + 1, d)

/-- State of the matching loop: the Direct frame with its flags, the
`matches` list, and the SST rows already processed with their flags. -/
structure MState where
  direct : List (Session × Bool)
  matchList : List (String × String)
  sstFlags : List (Session × Bool)
  deriving Repr, DecidableEq

/-- One iteration of the loop `for idx, sst_row in sst_df.iterrows()`
(lines 144-178): find the best unmatched candidate; if there is one, record
the id pair, flag the Direct row and the SST row as matched. -/
def matchStep (W : Int) (st : MState) (s : Session) : MState :=
  match bestCandidate W s st.direct with
  | none =>
    { st with sstFlags := st.sstFlags ++ [(s, false)] }
  | some (i, d) =>
    { direct := st.direct.set i (d, true)
      matchList := st.matchList ++ [(s.ga_session_id, d.ga_session_id)]
      sstFlags := st.sstFlags ++ [(s, true)] }

/-- The whole matching loop (lines 136-178), starting from all flags cleared
(`matched_to_sst = False`, `matched_to_direct = False`). -/
def runMatch (W : Int) (sst direct : List Session) : MState :=
  sst.foldl (matchStep W) ⟨direct.map (fun d => (d, false)), [], []⟩

/-- `drop_duplicates(subset=ga_session_id, keep=first)` (lines 50 and 127):
keep, in order, the first row carrying each distinct `ga_session_id`. -/
def dedupFirstAux (seen : List String) : List Session → List Session
  | [] => []
  | s :: rest =>
    if s.ga_session_id ∈ seen then dedupFirstAux seen rest
    else s :: dedupFirstAux (s.ga_session_id :: seen) rest

/-- `drop_duplicates(subset=ga_session_id, keep=first)`. -/
def dedupFirst (l : List Session) : List Session :=
  dedupFirstAux [] l

/-- The dictionary returned by `fuzzy_match_sessions` (lines 189-195). -/
structure MatchResult where
  both : List (String × String)
  sst_only : List String
  direct_only : List String
  sst_df : List (Session × Bool)
  direct_df : List (Session × Bool)
  deriving Repr, DecidableEq

/-- `fuzzy_match_sessions` restricted to its in-memory computation: the two
frames arrive from the warehouses (modelled as the two input lists, in query
result order), are deduplicated on `ga_session_id` (lines 50, 127), matched
(lines 136-178), and the unmatched residue of each source is listed
(lines 182-183). -/
def fuzzy_match_sessions (time_window_seconds : Nat)
    (sstRaw directRaw : List Session) : MatchResult :=
  let sst := dedupFirst sstRaw
  let direct := dedupFirst directRaw
  let st := runMatch (timeWindowMicros time_window_seconds) sst direct
  { both := st.matchList
    sst_only := (st.sstFlags.filter (fun p => !p.2)).map (fun p => p.1.ga_session_id)
    direct_only := (st.direct.filter (fun p => !p.2)).map (fun p => p.1.ga_session_id)
    sst_df := st.sstFlags
    direct_df := st.direct }

/-- The `totals` dictionary of `get_corrected_session_stats` (lines 207-210,
243-248). -/
structure Totals where
  both : Nat
  sst_only : Nat
  direct_only : Nat
  total : Nat
  deriving Repr, DecidableEq

/-- Python/numpy float values reached by the profile ratios: numpy scalar
division of `0/0` yields `nan` (with a RuntimeWarning, not an exception),
`x/0` with `x ≠ 0` yields a signed infinity, and pandas `mean()` of an empty
series yields `nan`. -/
inductive PyFloat where
  | nan : PyFloat
  | inf : PyFloat
  | ninf : PyFloat
  | val : ℚ → PyFloat
  deriving Repr, DecidableEq

/-- numpy scalar true division `a / b`. -/
def npDiv (a b : ℚ) : PyFloat :=
  if b = 0 then
    if a = 0 then .nan else if 0 < a then .inf else .ninf
  else .val (a / b)

/-- Multiplication of a float by a positive rational constant (`* 100`,
`/ 1000`): propagates `nan` and infinities. -/
def pyScale (c : ℚ) : PyFloat → PyFloat
  | .nan => .nan
  | .inf => .inf
  | .ninf => .ninf
  | .val q => .val (q * c)

/-- pandas `Series.mean()`: `nan` on an empty series, else the arithmetic
mean. -/
def seriesMean (l : List ℚ) : PyFloat :=
  if l = [] then .nan else .val (l.sum / (l.length : ℚ))

/-- `(series == v).sum()`. -/
def countRows (p : Session → Bool) (l : List Session) : Nat :=
  (l.filter p).length

/-- One block of the `profiles` dictionary (lines 251-271): `attrRows` feeds
the four share metrics, `engRows` feeds `avg_engagement_sec` (they differ
only for `Both`, which reads engagement from the Direct side, line 256). -/
structure ProfileMetrics where
  desktop_pct : PyFloat
  windows_pct : PyFloat
  windows_and_desktop_pct : PyFloat
  purchase_rate : PyFloat
  avg_engagement_sec : PyFloat
  deriving Repr, DecidableEq

/-- Lines 251-271, one category: each share is `count / len(category) * 100`
with numpy division semantics; `avg_engagement_sec` is
`to_numeric(...).fillna(0).mean() / 1000` (the engagement values of the embedding
are already numeric, so `to_numeric`/`fillna` are the identity here). -/
def profileOf (attrRows engRows : List Session) : ProfileMetrics :=
  let n : ℚ := (attrRows.length : ℚ)
  { desktop_pct :=
      pyScale 100 (npDiv (countRows (fun s => s.device_category == "desktop") attrRows) n)
    windows_pct :=
      pyScale 100 (npDiv (countRows (fun s => s.device_operating_system == "Windows") attrRows) n)
    windows_and_desktop_pct :=
      pyScale 100 (npDiv (countRows
        (fun s => s.device_category == "desktop" && s.device_operating_system == "Windows")
        attrRows) n)
    purchase_rate :=
      pyScale 100 (npDiv (countRows (fun s => s.has_purchase) attrRows) n)
    avg_engagement_sec :=
      pyScale (1 / 1000) (seriesMean (engRows.map (fun s => (s.engagement_time_msec : ℚ)))) }

/-- `pd.to_datetime(session_start_ts // 1000000, unit=s).dt.date`
(lines 225-226), with a calendar date represented as its epoch-day number;
`//` and the seconds-to-days conversion are floor divisions. -/
def dateOf (ts : Int) : Int :=
  Int.fdiv (Int.fdiv ts 1000000) 86400

/-- Lines 229-240: the three per-category `groupby(date).size()` series are
aligned into one frame whose index is the sorted union of the dates occurring
in at least one category, and missing entries become `0` (`fillna(0)`).
Each row is `(date, Both, Direct-only, SST-only)`. -/
def dailyTable (bothDates donlyDates sonlyDates : List Int) :
    List (Int × Nat × Nat × Nat) :=
  let idx := List.insertionSort (· ≤ ·) (bothDates ++ donlyDates ++ sonlyDates).dedup
  idx.map (fun d =>
    (d, (bothDates.filter (fun x => x = d)).length,
        (donlyDates.filter (fun x => x = d)).length,
        (sonlyDates.filter (fun x => x = d)).length))

/-- The dictionary returned by `get_corrected_session_stats` (lines 242-277).
Note the function returns no hourly table of any kind. -/
structure StatsResult where
  totals : Totals
  daily : List (Int × Nat × Nat × Nat)
  profile_both : ProfileMetrics
  profile_sst_only : ProfileMetrics
  profile_direct_only : ProfileMetrics
  deriving Repr, DecidableEq

/-- `get_corrected_session_stats` (lines 198-277): calls
`fuzzy_match_sessions` with the default `time_window_seconds=300`, splits the
two frames by `session_category`, and builds totals, the daily table and the
three profiles. -/
def get_corrected_session_stats (sstRaw directRaw : List Session) : StatsResult :=
  let r := fuzzy_match_sessions 300 sstRaw directRaw
  let both_sst := (r.sst_df.filter (fun p => p.2)).map (fun p => p.1)
  let sst_only_sessions := (r.sst_df.filter (fun p => !p.2)).map (fun p => p.1)
  let both_direct := (r.direct_df.filter (fun p => p.2)).map (fun p => p.1)
  let direct_only_sessions := (r.direct_df.filter (fun p => !p.2)).map (fun p => p.1)
  { totals :=
      { both := r.both.length
        sst_only := r.sst_only.length
        direct_only := r.direct_only.length
        total := r.both.length + r.sst_only.length + r.direct_only.length }
    daily :=
      dailyTable (both_direct.map (fun s => dateOf s.session_start_ts))
        (direct_only_sessions.map (fun s => dateOf s.session_start_ts))
        (sst_only_sessions.map (fun s => dateOf s.session_start_ts))
    profile_both := profileOf both_sst both_direct
    profile_sst_only := profileOf sst_only_sessions sst_only_sessions
    profile_direct_only := profileOf direct_only_sessions direct_only_sessions }

/-- One raw telemetry event as seen by the Athena aggregation query
(lines 66-84): one row of `sst_events_transformed`, with `ts` the value
`to_unixtime(from_iso8601_timestamp(timestamp)) * 1000000` in microseconds. -/
structure RawEvent where
  ga_session_id : String
  ts : Int
  device_category : String
  device_operating_system : String
  device_browser : String
  geo_country : String
  traffic_source : String
  event_name : String
  engagement_time_msec : Int
  deriving Repr, DecidableEq

/-- `MIN(ts)` over a non-empty group `e0 :: rest`. -/
def groupMinTs (e0 : RawEvent) (rest : List RawEvent) : Int :=
  rest.foldl (fun m e => min m e.ts) e0.ts

/-- The Athena `GROUP BY ga_session_id` aggregation (lines 67-77) over one
non-empty event group `e0 :: rest` (rows in result order). Presto/Trino
`ARBITRARY(col)` returns an arbitrary value of the group, with no ordering
guarantee; the embedding makes the choice of the warehouse explicit as the
parameter `arb`, whose only contract is to return a member of the list it is
given (see `arbValid`). -/
def athenaSessionAgg (arb : List String → String)
    (e0 : RawEvent) (rest : List RawEvent) : Session :=
  let g := e0 :: rest
  { ga_session_id := e0.ga_session_id
    session_start_ts := groupMinTs e0 rest
    device_category := arb (g.map (fun e => e.device_category))
    device_operating_system := arb (g.map (fun e => e.device_operating_system))
    device_browser := arb (g.map (fun e => e.device_browser))
    geo_country := arb (g.map (fun e => e.geo_country))
    traffic_source := arb (g.map (fun e => e.traffic_source))
    event_count := g.length
    has_purchase := g.any (fun e => e.event_name == "purchase")
    engagement_time_msec := (g.map (fun e => e.engagement_time_msec)).sum }

/-- The semantic contract of Presto/Trino `ARBITRARY`: on a non-empty group
it returns one of the values of the group (which one is unspecified). -/
def arbValid (arb : List String → String) : Prop :=
  ∀ xs : List String, xs ≠ [] → arb xs ∈ xs

/-- Modelled from the spec: the Session Aggregator policy of §4.1, which is
absent from the code (the Athena query uses `ARBITRARY`) — "all other scalar
attributes are taken from the event with the minimum timestamp", preferring
the event appearing first in the input order when several share the minimum
timestamp. -/
def specEarliestEvent (e0 : RawEvent) (rest : List RawEvent) : RawEvent :=
  rest.foldl (fun b e => if e.ts < b.ts then e else b) e0

/-- A concrete `ARBITRARY` implementation that returns the last value of the
group — a legal warehouse behaviour. -/
def arbLast (xs : List String) : String :=
  xs.reverse.headD ""

/-- The grouping key of the BigQuery aggregation (lines 31-45): the query
groups by `GROUP BY 1, 3, 4, 5, 6, 7`, i.e. by `ga_session_id` *together
with* the five scalar attribute columns, so a session whose events carry
more than one attribute combination is split into several result rows. -/
def bqKey (e : RawEvent) : String × String × String × String × String :=
  (e.device_category, e.device_operating_system, e.device_browser,
   e.geo_country, e.traffic_source)

/-- One result row of the BigQuery aggregation (lines 31-45), built from one
non-empty sub-group `f0 :: fs` of events sharing `ga_session_id` and
`bqKey`: `session_start_ts = MIN(event_timestamp)` *over the sub-group
only*, the attribute columns are the shared group keys, `event_count` is
`COUNT(*)`, `has_purchase` is `MAX(CASE WHEN event_name = purchase ...)` and
`engagement_time_msec` is the `SUM` of the increments. The warehouse returns
the rows of a session in an unspecified order; `fuzzy_match_sessions` then
keeps the first returned row per id via `drop_duplicates` (line 50, modelled
by `dedupFirst`). -/
def bqGroupAgg (f0 : RawEvent) (fs : List RawEvent) : Session :=
  let g := f0 :: fs
  { ga_session_id := f0.ga_session_id
    session_start_ts := groupMinTs f0 fs
    device_category := f0.device_category
    device_operating_system := f0.device_operating_system
    device_browser := f0.device_browser
    geo_country := f0.geo_country
    traffic_source := f0.traffic_source
    event_count := g.length
    has_purchase := g.any (fun e => e.event_name == "purchase")
    engagement_time_msec := (g.map (fun e => e.engagement_time_msec)).sum }

/-! ## Properties of the candidate selection -/

/-- Positional lookup implies membership. -/
theorem getElem_opt_mem {α : Type} : ∀ {l : List α} {i : Nat} {a : α},
    l[i]? = some a → a ∈ l := by
  intro l
  induction l with
  | nil => intro i a h; simp at h
  | cons hd rest ih =>
    intro i a h
    cases i with
    | zero => simp at h; subst h; exact List.mem_cons_self _ _
    | succ i' =>
      simp at h
      exact List.mem_cons_of_mem _ (ih h)

theorem bestCandidate_none {W : Int} {s : Session} :
    ∀ {l : List (Session × Bool)}, bestCandidate W s l = none →
      ∀ dm ∈ l, isCandidate W s dm = false := by
  intro l
  induction l with
  | nil => intro _ dm hdm; cases hdm
  | cons hd rest ih =>
    intro h dm hdm
    cases hr : bestCandidate W s rest with
    | none =>
      rw [bestCandidate, hr] at h
      by_cases hc : isCandidate W s hd = true
      · simp [hc] at h
      · rcases List.mem_cons.mp hdm with hdm | hdm
        · subst hdm; simpa using hc
        · exact ih hr dm hdm
    | some p =>
      rw [bestCandidate, hr] at h
      rcases p with ⟨j, d⟩
      by_cases hc : isCandidate W s hd = true <;> simp [hc] at h
      split at h <;> simp at h

theorem bestCandidate_sound {W : Int} {s : Session} :
    ∀ {l : List (Session × Bool)} {i : Nat} {d : Session},
      bestCandidate W s l = some (i, d) →
      l[i]? = some (d, false) ∧ isCandidate W s (d, false) = true := by
  intro l
  induction l with
  | nil => intro i d h; simp [bestCandidate] at h
  | cons hd rest ih =>
    intro i d h
    have hflag : ∀ (dm : Session × Bool), isCandidate W s dm = true → dm = (dm.1, false) := by
      intro dm hc
      have : dm.2 = false := by
        rcases dm with ⟨a, b⟩
        cases b
        · rfl
        · simp [isCandidate] at hc
      rcases dm with ⟨a, b⟩
      simp at this
      simp [this]
    cases hr : bestCandidate W s rest with
    | none =>
      rw [bestCandidate, hr] at h
      by_cases hc : isCandidate W s hd = true
      · simp [hc] at h
        rcases h with ⟨hi, hdm⟩
        subst hi
        have := hflag hd hc
        subst hdm
        constructor
        · simpa using congrArg (fun p => some p) this
        · rw [← this]; exact hc
      · simp [hc] at h
    | some p =>
      rcases p with ⟨j, d0⟩
      rw [bestCandidate, hr] at h
      by_cases hc : isCandidate W s hd = true
      · simp [hc] at h
        by_cases hle : tsDiff s hd.1 ≤ tsDiff s d0
        · simp [hle] at h
          rcases h with ⟨hi, hdm⟩
          subst hi
          have := hflag hd hc
          subst hdm
          constructor
          · simpa using congrArg (fun p => some p) this
          · rw [← this]; exact hc
        · simp [hle] at h
          rcases h with ⟨hi, hdm⟩
          subst hi; subst hdm
          have := ih hr
          simpa using this
      · simp [hc] at h
        rcases h with ⟨hi, hdm⟩
        subst hi; subst hdm
        have := ih hr
        simpa using this

theorem bestCandidate_min {W : Int} {s : Session} :
    ∀ {l : List (Session × Bool)} {i : Nat} {d : Session},
      bestCandidate W s l = some (i, d) →
      ∀ (j : Nat) (dm : Session × Bool), l[j]? = some dm → isCandidate W s dm = true →
        tsDiff s d ≤ tsDiff s dm.1 := by
  intro l
  induction l with
  | nil => intro i d h; simp [bestCandidate] at h
  | cons hd rest ih =>
    intro i d h j dm hj hcand
    cases hr : bestCandidate W s rest with
    | none =>
      rw [bestCandidate, hr] at h
      by_cases hc : isCandidate W s hd = true
      · simp [hc] at h
        rcases h with ⟨hi, hdm⟩
        cases j with
        | zero =>
          simp at hj
          subst hj; subst hdm; exact le_refl _
        | succ j' =>
          simp at hj
          have := bestCandidate_none hr dm (getElem_opt_mem hj)
          rw [hcand] at this; cases this
      · simp [hc] at h
    | some p =>
      rcases p with ⟨j0, d0⟩
      rw [bestCandidate, hr] at h
      by_cases hc : isCandidate W s hd = true
      · simp [hc] at h
        by_cases hle : tsDiff s hd.1 ≤ tsDiff s d0
        · simp [hle] at h
          rcases h with ⟨hi, hdm⟩
          subst hdm
          cases j with
          | zero => simp at hj; subst hj; exact le_refl _
          | succ j' =>
            simp at hj
            exact le_trans hle (ih hr j' dm hj hcand)
        · simp [hle] at h
          rcases h with ⟨hi, hdm⟩
          subst hdm
          cases j with
          | zero =>
            simp at hj
            subst hj
            exact le_of_lt (lt_of_not_le hle)
          | succ j' =>
            simp at hj
            exact ih hr j' dm hj hcand
      · simp [hc] at h
        rcases h with ⟨hi, hdm⟩
        subst hdm
        cases j with
        | zero =>
          simp at hj
          subst hj
          rw [hcand] at hc; cases hc rfl
        | succ j' =>
          simp at hj
          exact ih hr j' dm hj hcand

theorem bestCandidate_firstIdx {W : Int} {s : Session} :
    ∀ {l : List (Session × Bool)} {i : Nat} {d : Session},
      bestCandidate W s l = some (i, d) →
      ∀ (j : Nat) (dm : Session × Bool), l[j]? = some dm → isCandidate W s dm = true →
        tsDiff s dm.1 ≤ tsDiff s d → i ≤ j := by
  intro l
  induction l with
  | nil => intro i d h; simp [bestCandidate] at h
  | cons hd rest ih =>
    intro i d h j dm hj hcand hle2
    cases hr : bestCandidate W s rest with
    | none =>
      rw [bestCandidate, hr] at h
      by_cases hc : isCandidate W s hd = true
      · simp [hc] at h
        rcases h with ⟨hi, hdm⟩
        subst hi; exact Nat.zero_le _
      · simp [hc] at h
    | some p =>
      rcases p with ⟨j0, d0⟩
      rw [bestCandidate, hr] at h
      by_cases hc : isCandidate W s hd = true
      · simp [hc] at h
        by_cases hle : tsDiff s hd.1 ≤ tsDiff s d0
        · simp [hle] at h
          rcases h with ⟨hi, hdm⟩
          subst hi; exact Nat.zero_le _
        · simp [hle] at h
          rcases h with ⟨hi, hdm⟩
          subst hi; subst hdm
          cases j with
          | zero =>
            simp at hj
            subst hj
            exact absurd hle2 hle
          | succ j' =>
            simp at hj
            exact Nat.succ_le_succ (ih hr j' dm hj hcand hle2)
      · simp [hc] at h
        rcases h with ⟨hi, hdm⟩
        subst hi; subst hdm
        cases j with
        | zero =>
          simp at hj
          subst hj
          rw [hcand] at hc; cases hc rfl
        | succ j' =>
          simp at hj
          exact Nat.succ_le_succ (ih hr j' dm hj hcand hle2)

theorem bestCandidate_isSome_of_exists {W : Int} {s : Session}
    {l : List (Session × Bool)} (h : ∃ dm ∈ l, isCandidate W s dm = true) :
    ∃ i d, bestCandidate W s l = some (i, d) := by
  rcases h with ⟨dm, hdm, hcand⟩
  cases hb : bestCandidate W s l with
  | none =>
    have := bestCandidate_none hb dm hdm
    rw [hcand] at this; cases this
  | some p => exact ⟨p.1, p.2, by simp [hb]⟩

/-! ## List helpers for the loop invariants -/

/-- Positional lookup implies the index is in range. -/
theorem getElem_opt_lt {α : Type} : ∀ {l : List α} {i : Nat} {a : α},
    l[i]? = some a → i < l.length := by
  intro l
  induction l with
  | nil => intro i a h; simp at h
  | cons hd rest ih =>
    intro i a h
    cases i with
    | zero => simp
    | succ i' => simp at h ⊢; exact ih h

/-- `set` at a valid index stores the new value there. -/
theorem set_getElem_eq {α : Type} : ∀ {l : List α} {i : Nat} {a x : α},
    l[i]? = some a → (l.set i x)[i]? = some x := by
  intro l
  induction l with
  | nil => intro i a x h; simp at h
  | cons hd rest ih =>
    intro i a x h
    cases i with
    | zero => simp
    | succ i' => simp at h ⊢; exact ih h

/-- `set` leaves other indices unchanged. -/
theorem set_getElem_ne {α : Type} : ∀ {l : List α} {i j : Nat} {x : α},
    i ≠ j → (l.set i x)[j]? = l[j]? := by
  intro l
  induction l with
  | nil => intro i j x _; simp
  | cons hd rest ih =>
    intro i j x hne
    cases i with
    | zero =>
      cases j with
      | zero => cases hne rfl
      | succ j' => simp
    | succ i' =>
      cases j with
      | zero => simp
      | succ j' => simp; exact ih (fun h => hne (by rw [h]))

/-- Two positions carrying the same key in a list whose keys are `Nodup`
coincide. -/
theorem nodup_key_idx {α β : Type} {g : α → β} :
    ∀ {l : List α} {i j : Nat} {x y : α},
      (l.map g).Nodup → l[i]? = some x → l[j]? = some y → g x = g y → i = j := by
  intro l i j x y hnd hi hj hg
  have hi' : (l.map g)[i]? = some (g x) := by simp [List.getElem?_map, hi]
  have hj' : (l.map g)[j]? = some (g y) := by simp [List.getElem?_map, hj]
  refine List.getElem?_inj ?_ hnd ?_
  · have := getElem_opt_lt hi
    simpa using this
  · rw [hi', hj', hg]

/-- Folding a step function preserves any invariant the step preserves for
elements of the folded list. -/
theorem foldl_inv_mem {α σ : Type} (step : σ → α → σ) (P : σ → Prop) :
    ∀ (l : List α) (st : σ),
      (∀ st' a, a ∈ l → P st' → P (step st' a)) → P st → P (l.foldl step st) := by
  intro l
  induction l with
  | nil => intro st _ h; exact h
  | cons hd rest ih =>
    intro st hstep h
    exact ih (step st hd)
      (fun st' a ha hp => hstep st' a (List.mem_cons_of_mem _ ha) hp)
      (hstep st hd (List.mem_cons_self _ _) h)

/-! ## Properties of the `drop_duplicates` step -/

/-- Every row kept by the deduplication has an id outside `seen` and is the
first row of the input carrying its id. -/
theorem dedupFirstAux_keeps_first :
    ∀ (l : List Session) (seen : List String) (s : Session),
      s ∈ dedupFirstAux seen l →
      s.ga_session_id ∉ seen ∧
        l.find? (fun t => t.ga_session_id == s.ga_session_id) = some s := by
  intro l
  induction l with
  | nil => intro seen s h; simp [dedupFirstAux] at h
  | cons hd rest ih =>
    intro seen s h
    rw [dedupFirstAux] at h
    by_cases hseen : hd.ga_session_id ∈ seen
    · simp [hseen] at h
      rcases ih seen s h with ⟨hnot, hfind⟩
      refine ⟨hnot, ?_⟩
      rw [List.find?_cons]
      have hne : (hd.ga_session_id == s.ga_session_id) = false := by
        by_cases he : hd.ga_session_id = s.ga_session_id
        · rw [he] at hseen; cases hnot hseen
        · simp [he]
      rw [hne]
      exact hfind
    · simp [hseen] at h
      rcases h with h | h
      · subst h
        exact ⟨hseen, by rw [List.find?_cons]; simp⟩
      · rcases ih _ s h with ⟨hnot, hfind⟩
        have hne : s.ga_session_id ≠ hd.ga_session_id := by
          intro he
          exact hnot (by rw [he]; exact List.mem_cons_self _ _)
        refine ⟨fun hs => hnot (List.mem_cons_of_mem _ hs), ?_⟩
        rw [List.find?_cons]
        have : (hd.ga_session_id == s.ga_session_id) = false := by
          simp
          exact fun he => hne he.symm
        rw [this]
        exact hfind

/-- The ids of the deduplicated frame are pairwise distinct. -/
theorem dedupFirstAux_nodup :
    ∀ (l : List Session) (seen : List String),
      ((dedupFirstAux seen l).map (fun t => t.ga_session_id)).Nodup := by
  intro l
  induction l with
  | nil => intro seen; simp [dedupFirstAux]
  | cons hd rest ih =>
    intro seen
    rw [dedupFirstAux]
    by_cases hseen : hd.ga_session_id ∈ seen
    · simp [hseen]; exact ih seen
    · simp [hseen]
      refine ⟨?_, ih _⟩
      intro t ht he
      rcases dedupFirstAux_keeps_first rest (hd.ga_session_id :: seen) t ht with ⟨hnot, _⟩
      exact hnot (by rw [he]; exact List.mem_cons_self _ _)

/-- Every id of the input survives deduplication (unless already seen). -/
theorem dedupFirstAux_complete :
    ∀ (l : List Session) (seen : List String) (t : Session), t ∈ l →
      t.ga_session_id ∈ seen ∨
        ∃ s ∈ dedupFirstAux seen l, s.ga_session_id = t.ga_session_id := by
  intro l
  induction l with
  | nil => intro seen t h; cases h
  | cons hd rest ih =>
    intro seen t h
    rw [dedupFirstAux]
    by_cases hseen : hd.ga_session_id ∈ seen
    · rcases List.mem_cons.mp h with h | h
      · subst h; exact Or.inl hseen
      · simpa [hseen] using ih seen t h
    · rcases List.mem_cons.mp h with h | h
      · subst h
        exact Or.inr ⟨t, by simp [hseen], rfl⟩
      · rcases ih (hd.ga_session_id :: seen) t h with hc | ⟨s, hs, he⟩
        · rcases List.mem_cons.mp hc with hc | hc
          · exact Or.inr ⟨hd, by simp [hseen], hc.symm⟩
          · exact Or.inl hc
        · exact Or.inr ⟨s, by simp [hseen]; exact Or.inr hs, he⟩

/-! ## The matching-loop invariant -/

/-- Number of rows currently flagged as matched (`session_category = Both`). -/
def flaggedLen (l : List (Session × Bool)) : Nat :=
  (l.filter (fun p => p.2)).length

theorem flaggedLen_append_false (l : List (Session × Bool)) (s : Session) :
    flaggedLen (l ++ [(s, false)]) = flaggedLen l := by
  simp [flaggedLen, List.filter_append]

theorem flaggedLen_append_true (l : List (Session × Bool)) (s : Session) :
    flaggedLen (l ++ [(s, true)]) = flaggedLen l + 1 := by
  simp [flaggedLen, List.filter_append]

theorem flaggedLen_set_true :
    ∀ {l : List (Session × Bool)} {i : Nat} {d : Session},
      l[i]? = some (d, false) →
      flaggedLen (l.set i (d, true)) = flaggedLen l + 1 := by
  intro l
  induction l with
  | nil => intro i d h; simp at h
  | cons hd rest ih =>
    intro i d h
    cases i with
    | zero =>
      simp at h
      rw [h]
      simp [flaggedLen, List.filter_cons]
    | succ i' =>
      simp at h
      rcases hd with ⟨a, b⟩
      cases b <;> simp [flaggedLen, List.filter_cons] at ih ⊢ <;>
        exact ih h

theorem flaggedLen_init (D : List Session) :
    flaggedLen (D.map (fun d => (d, false))) = 0 := by
  induction D with
  | nil => simp [flaggedLen]
  | cons hd rest ih => simp [flaggedLen, List.filter_cons] at ih ⊢

theorem unflagged_add_flagged (l : List (Session × Bool)) :
    (l.filter (fun p => !p.2)).length + flaggedLen l = l.length := by
  induction l with
  | nil => simp [flaggedLen]
  | cons hd rest ih =>
    rcases hd with ⟨a, b⟩
    cases b <;> simp [flaggedLen, List.filter_cons] at ih ⊢ <;> omega

theorem map_fst_set (b' : Bool) :
    ∀ {l : List (Session × Bool)} {i : Nat} {d : Session} {b : Bool},
      l[i]? = some (d, b) →
      (l.set i (d, b')).map Prod.fst = l.map Prod.fst := by
  intro l
  induction l with
  | nil => intro i d b h; simp at h
  | cons hd rest ih =>
    intro i d b h
    cases i with
    | zero => simp at h; rw [h]; simp
    | succ i' =>
      simp at h
      simpa using ih h

/-- Invariant of the matching loop of `fuzzy_match_sessions`
(lines 136-178), over the processed prefix of the (deduplicated) SST frame:
the Direct rows are never altered, each recorded pair consumed exactly one
Direct flag and one SST flag, recorded pairs come from rows passing the
window and attribute filters, every matched Direct id is flagged, and (when
Direct ids are unique) no Direct id is recorded twice. -/
def MatchInv (W : Int) (sstIn D : List Session) (st : MState) : Prop :=
  st.direct.map Prod.fst = D ∧
  st.matchList.length = flaggedLen st.direct ∧
  st.matchList.length = flaggedLen st.sstFlags ∧
  st.matchList.map Prod.fst =
    (st.sstFlags.filter (fun p => p.2)).map (fun p => p.1.ga_session_id) ∧
  (∀ ab ∈ st.matchList, ∃ s' ∈ sstIn, ∃ d' ∈ D,
      ab = (s'.ga_session_id, d'.ga_session_id) ∧
      inWindow W s'.session_start_ts d'.session_start_ts = true ∧
      attrsMatch s' d' = true) ∧
  (∀ b ∈ st.matchList.map Prod.snd, ∃ (j : Nat) (d' : Session),
      st.direct[j]? = some (d', true) ∧ d'.ga_session_id = b) ∧
  ((D.map (fun t => t.ga_session_id)).Nodup → (st.matchList.map Prod.snd).Nodup)

theorem matchStep_inv {W : Int} {sstIn D : List Session} {st : MState}
    {s : Session} (hs : s ∈ sstIn) (hinv : MatchInv W sstIn D st) :
    MatchInv W sstIn D (matchStep W st s) := by
  rcases hinv with ⟨hfst, hlen, hslen, hids, hpairs, hmem, hnd⟩
  cases hb : bestCandidate W s st.direct with
  | none =>
    have hstep : matchStep W st s = { st with sstFlags := st.sstFlags ++ [(s, false)] } := by
      simp [matchStep, hb]
    rw [MatchInv, hstep]
    refine ⟨hfst, hlen, ?_, ?_, hpairs, hmem, hnd⟩
    · simpa [flaggedLen_append_false] using hslen
    · simpa [List.filter_append] using hids
  | some p =>
    rcases p with ⟨i, d⟩
    rcases bestCandidate_sound hb with ⟨hget, hcand⟩
    have hwin : inWindow W s.session_start_ts d.session_start_ts = true ∧
        attrsMatch s d = true := by
      simpa [isCandidate] using hcand
    have hdD : d ∈ D := by
      rw [← hfst]
      exact List.mem_map_of_mem Prod.fst (getElem_opt_mem hget)
    have hstep : matchStep W st s =
        { direct := st.direct.set i (d, true)
          matchList := st.matchList ++ [(s.ga_session_id, d.ga_session_id)]
          sstFlags := st.sstFlags ++ [(s, true)] } := by
      simp [matchStep, hb]
    rw [MatchInv, hstep]
    refine ⟨?_, ?_, ?_, ?_, ?_, ?_, ?_⟩
    · show (st.direct.set i (d, true)).map Prod.fst = D
      rw [map_fst_set true hget]
      exact hfst
    · show (st.matchList ++ [(s.ga_session_id, d.ga_session_id)]).length =
        flaggedLen (st.direct.set i (d, true))
      rw [flaggedLen_set_true hget]
      simp [hlen]
    · show (st.matchList ++ [(s.ga_session_id, d.ga_session_id)]).length =
        flaggedLen (st.sstFlags ++ [(s, true)])
      rw [flaggedLen_append_true]
      simp [hslen]
    · show (st.matchList ++ [(s.ga_session_id, d.ga_session_id)]).map Prod.fst =
        ((st.sstFlags ++ [(s, true)]).filter (fun p => p.2)).map (fun p => p.1.ga_session_id)
      simp [List.filter_append, hids]
    · intro ab hab
      simp only [List.mem_append, List.mem_singleton] at hab
      rcases hab with hab | hab
      · exact hpairs ab hab
      · exact ⟨s, hs, d, hdD, hab, hwin.1, hwin.2⟩
    · intro b hbmem
      simp only [List.map_append, List.mem_append, List.map_cons, List.map_nil,
        List.mem_singleton] at hbmem
      rcases hbmem with hbmem | hbmem
      · rcases hmem b hbmem with ⟨j, d', hj, hid⟩
        have hne : i ≠ j := by
          intro he
          rw [← he, hget] at hj
          simp at hj
        exact ⟨j, d', by rw [set_getElem_ne hne]; exact hj, hid⟩
      · exact ⟨i, d, set_getElem_eq hget, hbmem.symm⟩
    · intro hD
      have hold := hnd hD
      simp only [List.map_append, List.map_cons, List.map_nil]
      rw [List.nodup_append]
      refine ⟨hold, by simp, ?_⟩
      intro b hbmem hbnew
      simp only [List.mem_singleton] at hbnew
      rcases hmem b hbmem with ⟨j, d', hj, hid⟩
      have hDdir : (st.direct.map (fun p => p.1.ga_session_id)).Nodup := by
        have hmm : st.direct.map (fun p => p.1.ga_session_id) =
            (st.direct.map Prod.fst).map (fun t => t.ga_session_id) := by
          simp [List.map_map]
        rw [hmm, hfst]
        exact hD
      have hij : i = j := by
        refine nodup_key_idx hDdir hget hj ?_
        rw [hid, hbnew]
      rw [← hij, hget] at hj
      simp at hj

theorem map_fst_mkflags (D : List Session) :
    (D.map (fun d => (d, false))).map Prod.fst = D := by
  induction D with
  | nil => simp
  | cons hd rest ih => simp [ih]

/-- The whole loop keeps the invariant. -/
theorem runMatch_inv (W : Int) (sst D : List Session) :
    MatchInv W sst D (runMatch W sst D) := by
  have hinit : MatchInv W sst D ⟨D.map (fun d => (d, false)), [], []⟩ := by
    refine ⟨map_fst_mkflags D, by simp [flaggedLen_init], by simp [flaggedLen], by simp,
      ?_, ?_, by simp⟩
    · intro ab hab; cases hab
    · intro b hb; simp at hb
  exact foldl_inv_mem (matchStep W) (MatchInv W sst D) sst _
    (fun st' a ha hp => matchStep_inv ha hp) hinit

theorem matchStep_sstFlags_fst (W : Int) (st : MState) (s : Session) :
    ((matchStep W st s).sstFlags).map Prod.fst = st.sstFlags.map Prod.fst ++ [s] := by
  cases hb : bestCandidate W s st.direct with
  | none => simp [matchStep, hb]
  | some p => rcases p with ⟨i, d⟩; simp [matchStep, hb]

/-- The processed SST rows are exactly the input SST rows, in order. -/
theorem foldl_sstFlags_fst (W : Int) :
    ∀ (l : List Session) (st : MState),
      ((l.foldl (matchStep W) st).sstFlags).map Prod.fst =
        st.sstFlags.map Prod.fst ++ l := by
  intro l
  induction l with
  | nil => intro st; simp
  | cons hd rest ih =>
    intro st
    have := ih (matchStep W st hd)
    simp only [List.foldl_cons]
    rw [this, matchStep_sstFlags_fst]
    simp

theorem runMatch_sstFlags_fst (W : Int) (sst D : List Session) :
    ((runMatch W sst D).sstFlags).map Prod.fst = sst := by
  have := foldl_sstFlags_fst W sst ⟨D.map (fun d => (d, false)), [], []⟩
  simpa [runMatch] using this

/-! ## Unfolding equations for the result dictionary -/

theorem fuzzy_both_eq (w : Nat) (a b : List Session) :
    (fuzzy_match_sessions w a b).both =
      (runMatch (timeWindowMicros w) (dedupFirst a) (dedupFirst b)).matchList := rfl

theorem fuzzy_sst_only_eq (w : Nat) (a b : List Session) :
    (fuzzy_match_sessions w a b).sst_only =
      (((runMatch (timeWindowMicros w) (dedupFirst a) (dedupFirst b)).sstFlags.filter
        (fun p => !p.2)).map (fun p => p.1.ga_session_id)) := rfl

theorem fuzzy_direct_only_eq (w : Nat) (a b : List Session) :
    (fuzzy_match_sessions w a b).direct_only =
      (((runMatch (timeWindowMicros w) (dedupFirst a) (dedupFirst b)).direct.filter
        (fun p => !p.2)).map (fun p => p.1.ga_session_id)) := rfl

theorem fuzzy_sst_df_eq (w : Nat) (a b : List Session) :
    (fuzzy_match_sessions w a b).sst_df =
      (runMatch (timeWindowMicros w) (dedupFirst a) (dedupFirst b)).sstFlags := rfl

theorem fuzzy_direct_df_eq (w : Nat) (a b : List Session) :
    (fuzzy_match_sessions w a b).direct_df =
      (runMatch (timeWindowMicros w) (dedupFirst a) (dedupFirst b)).direct := rfl

/-! ## C1: the assignment is 1:1 -/

/-- C1: for every pair of session inputs and every `time_window`, no session
id appears in more than one matched pair of `both`: the SST ids of the
recorded pairs are pairwise distinct, and so are the Direct ids. -/
theorem fuzzy_match_one_to_one (w : Nat) (sstRaw directRaw : List Session) :
    (((fuzzy_match_sessions w sstRaw directRaw).both.map Prod.fst).Nodup) ∧
    (((fuzzy_match_sessions w sstRaw directRaw).both.map Prod.snd).Nodup) := by
  have hinv := runMatch_inv (timeWindowMicros w) (dedupFirst sstRaw) (dedupFirst directRaw)
  rcases hinv with ⟨hfst, hlen, hslen, hids, hpairs, hmem, hnd⟩
  constructor
  · rw [fuzzy_both_eq, hids]
    have hsub : List.Sublist
        (((runMatch (timeWindowMicros w) (dedupFirst sstRaw)
          (dedupFirst directRaw)).sstFlags.filter (fun p => p.2)).map
            (fun p => p.1.ga_session_id))
        ((runMatch (timeWindowMicros w) (dedupFirst sstRaw)
          (dedupFirst directRaw)).sstFlags.map (fun p => p.1.ga_session_id)) :=
      List.Sublist.map _ (List.filter_sublist _)
    have hall : ((runMatch (timeWindowMicros w) (dedupFirst sstRaw)
        (dedupFirst directRaw)).sstFlags.map (fun p => p.1.ga_session_id)).Nodup := by
      have hmm : ((runMatch (timeWindowMicros w) (dedupFirst sstRaw)
          (dedupFirst directRaw)).sstFlags.map (fun p => p.1.ga_session_id)) =
          (((runMatch (timeWindowMicros w) (dedupFirst sstRaw)
            (dedupFirst directRaw)).sstFlags.map Prod.fst).map
              (fun t => t.ga_session_id)) := by
        simp [List.map_map]
      rw [hmm, runMatch_sstFlags_fst]
      exact dedupFirstAux_nodup sstRaw []
    exact hall.sublist hsub
  · rw [fuzzy_both_eq]
    exact hnd (dedupFirstAux_nodup directRaw [])

/-! ## C2: the count identity -/

/-- C2: the totals of `get_corrected_session_stats` satisfy
`both + sst_only = |SST summaries|`, `both + direct_only = |Direct summaries|`
(the summary count of a source being its deduplicated session rows), and
`total` is the sum of the three categories. -/
theorem stats_count_identity (sstRaw directRaw : List Session) :
    (get_corrected_session_stats sstRaw directRaw).totals.both +
        (get_corrected_session_stats sstRaw directRaw).totals.sst_only =
      (dedupFirst sstRaw).length ∧
    (get_corrected_session_stats sstRaw directRaw).totals.both +
        (get_corrected_session_stats sstRaw directRaw).totals.direct_only =
      (dedupFirst directRaw).length ∧
    (get_corrected_session_stats sstRaw directRaw).totals.total =
      (get_corrected_session_stats sstRaw directRaw).totals.both +
        (get_corrected_session_stats sstRaw directRaw).totals.sst_only +
        (get_corrected_session_stats sstRaw directRaw).totals.direct_only := by
  have hinv := runMatch_inv (timeWindowMicros 300) (dedupFirst sstRaw) (dedupFirst directRaw)
  rcases hinv with ⟨hfst, hlen, hslen, hids, hpairs, hmem, hnd⟩
  have htb : (get_corrected_session_stats sstRaw directRaw).totals.both =
      (runMatch (timeWindowMicros 300) (dedupFirst sstRaw)
        (dedupFirst directRaw)).matchList.length := rfl
  have hts : (get_corrected_session_stats sstRaw directRaw).totals.sst_only =
      ((runMatch (timeWindowMicros 300) (dedupFirst sstRaw)
        (dedupFirst directRaw)).sstFlags.filter (fun p => !p.2)).length := by
    show ((fuzzy_match_sessions 300 sstRaw directRaw).sst_only).length = _
    rw [fuzzy_sst_only_eq]
    simp
  have htd : (get_corrected_session_stats sstRaw directRaw).totals.direct_only =
      ((runMatch (timeWindowMicros 300) (dedupFirst sstRaw)
        (dedupFirst directRaw)).direct.filter (fun p => !p.2)).length := by
    show ((fuzzy_match_sessions 300 sstRaw directRaw).direct_only).length = _
    rw [fuzzy_direct_only_eq]
    simp
  have hsstlen : (runMatch (timeWindowMicros 300) (dedupFirst sstRaw)
      (dedupFirst directRaw)).sstFlags.length = (dedupFirst sstRaw).length := by
    have := congrArg List.length
      (runMatch_sstFlags_fst (timeWindowMicros 300) (dedupFirst sstRaw) (dedupFirst directRaw))
    simpa using this
  have hdirlen : (runMatch (timeWindowMicros 300) (dedupFirst sstRaw)
      (dedupFirst directRaw)).direct.length = (dedupFirst directRaw).length := by
    have := congrArg List.length hfst
    simpa using this
  have hsplit_s := unflagged_add_flagged
    (runMatch (timeWindowMicros 300) (dedupFirst sstRaw) (dedupFirst directRaw)).sstFlags
  have hsplit_d := unflagged_add_flagged
    (runMatch (timeWindowMicros 300) (dedupFirst sstRaw) (dedupFirst directRaw)).direct
  refine ⟨?_, ?_, rfl⟩
  · rw [htb, hts]
    omega
  · rw [htb, htd]
    omega

/-! ## C3, C7: what the window and attribute filters guarantee per pair -/

theorem inWindow_abs_le {W a b : Int} (h : inWindow W a b = true) :
    |b - a| ≤ W := by
  simp [inWindow] at h
  rw [abs_le]
  omega

theorem attrsMatch_eq {s d : Session} (h : attrsMatch s d = true) :
    d.device_category = s.device_category ∧ d.geo_country = s.geo_country := by
  simpa [attrsMatch] using h

/-- Shared form of the per-pair guarantee: every recorded pair joins rows
passing the window and attribute filters. -/
theorem fuzzy_pairs_spec (w : Nat) (sstRaw directRaw : List Session) :
    ∀ ab ∈ (fuzzy_match_sessions w sstRaw directRaw).both,
      ∃ s' ∈ dedupFirst sstRaw, ∃ d' ∈ dedupFirst directRaw,
        ab = (s'.ga_session_id, d'.ga_session_id) ∧
        |d'.session_start_ts - s'.session_start_ts| ≤ (w : Int) * 1000000 ∧
        d'.device_category = s'.device_category ∧
        d'.geo_country = s'.geo_country := by
  intro ab hab
  have hinv := runMatch_inv (timeWindowMicros w) (dedupFirst sstRaw) (dedupFirst directRaw)
  rcases hinv with ⟨-, -, -, -, hpairs, -, -⟩
  rw [fuzzy_both_eq] at hab
  rcases hpairs ab hab with ⟨s', hs', d', hd', hab', hwin, hattr⟩
  have habs := inWindow_abs_le hwin
  rcases attrsMatch_eq hattr with ⟨hdev, hcty⟩
  exact ⟨s', hs', d', hd', hab', by simpa [timeWindowMicros] using habs, hdev, hcty⟩

/-- C3: every pair recorded in `both` joins an SST summary and a Direct
summary whose start timestamps differ by at most `time_window_seconds`
(in microseconds) and whose `device_category` and `geo_country` are equal
(the code compares the raw strings, so they are equal verbatim, hence also
under any case/format normalization). -/
theorem fuzzy_match_pair_contract (w : Nat) (sstRaw directRaw : List Session) :
    ∀ ab ∈ (fuzzy_match_sessions w sstRaw directRaw).both,
      ∃ s' ∈ dedupFirst sstRaw, ∃ d' ∈ dedupFirst directRaw,
        ab = (s'.ga_session_id, d'.ga_session_id) ∧
        |d'.session_start_ts - s'.session_start_ts| ≤ (w : Int) * 1000000 ∧
        d'.device_category = s'.device_category ∧
        d'.geo_country = s'.geo_country :=
  fuzzy_pairs_spec w sstRaw directRaw

/-- C7: with `time_window = 0` a recorded pair joins rows with exactly equal
start timestamps, equal `device_category` and equal `geo_country` — an
exact-key agreement on `(timestamp, device_category, country)`. -/
theorem fuzzy_match_window_zero_exact (sstRaw directRaw : List Session) :
    ∀ ab ∈ (fuzzy_match_sessions 0 sstRaw directRaw).both,
      ∃ s' ∈ dedupFirst sstRaw, ∃ d' ∈ dedupFirst directRaw,
        ab = (s'.ga_session_id, d'.ga_session_id) ∧
        d'.session_start_ts = s'.session_start_ts ∧
        d'.device_category = s'.device_category ∧
        d'.geo_country = s'.geo_country := by
  intro ab hab
  rcases fuzzy_pairs_spec 0 sstRaw directRaw ab hab with
    ⟨s', hs', d', hd', hab', habs, hdev, hcty⟩
  refine ⟨s', hs', d', hd', hab', ?_, hdev, hcty⟩
  have : |d'.session_start_ts - s'.session_start_ts| ≤ 0 := by simpa using habs
  have h0 : d'.session_start_ts - s'.session_start_ts = 0 := by
    have := abs_nonneg (d'.session_start_ts - s'.session_start_ts)
    have habs0 : |d'.session_start_ts - s'.session_start_ts| = 0 := le_antisymm ‹_› ‹_›
    exact abs_eq_zero.mp habs0
  omega

/-! ## C4: the greedy step picks the minimum-delta candidate, first on ties -/

/-- C4: whenever the Direct frame still holds at least one unmatched row
passing the window and attribute filters for the SST row `s`, the loop body
records exactly the pair `(s, d)` where `d` is an unmatched candidate of
minimum `ts_diff`, and among candidates of equal minimal `ts_diff` the one
at the smallest frame position. -/
theorem matcher_picks_min_delta (W : Int) (st : MState) (s : Session)
    (h : ∃ dm ∈ st.direct, isCandidate W s dm = true) :
    ∃ (i : Nat) (d : Session),
      bestCandidate W s st.direct = some (i, d) ∧
      (matchStep W st s).matchList =
        st.matchList ++ [(s.ga_session_id, d.ga_session_id)] ∧
      st.direct[i]? = some (d, false) ∧
      isCandidate W s (d, false) = true ∧
      (∀ (j : Nat) (dm : Session × Bool), st.direct[j]? = some dm →
        isCandidate W s dm = true →
          tsDiff s d ≤ tsDiff s dm.1 ∧ (tsDiff s dm.1 ≤ tsDiff s d → i ≤ j)) := by
  rcases bestCandidate_isSome_of_exists h with ⟨i, d, hb⟩
  rcases bestCandidate_sound hb with ⟨hget, hcand⟩
  refine ⟨i, d, hb, ?_, hget, hcand, ?_⟩
  · simp [matchStep, hb]
  · intro j dm hj hc
    exact ⟨bestCandidate_min hb j dm hj hc, fun hle => bestCandidate_firstIdx hb j dm hj hc hle⟩

/-! ## C8: determinism of the reconciliation -/

/-- C8: the matching and categorization are functions of the session rows
(in their given order) and the window parameter alone: two runs over
identical inputs produce identical match results, category flags and totals.
The loop of lines 136-195 reads no clock and spawns no concurrency, which
the embedding reflects by being a pure function of these inputs. -/
theorem reconciliation_deterministic (w₁ w₂ : Nat)
    (sst₁ sst₂ direct₁ direct₂ : List Session)
    (hw : w₁ = w₂) (hs : sst₁ = sst₂) (hd : direct₁ = direct₂) :
    fuzzy_match_sessions w₁ sst₁ direct₁ = fuzzy_match_sessions w₂ sst₂ direct₂ ∧
    get_corrected_session_stats sst₁ direct₁ =
      get_corrected_session_stats sst₂ direct₂ := by
  subst hw
  subst hs
  subst hd
  exact ⟨rfl, rfl⟩

/-! ## C10: the frames handed to the matcher are deduplicated on id -/

/-- C10: before matching, each source frame is deduplicated on
`ga_session_id` keeping the first occurrence: the frames carried through the
matcher hold pairwise-distinct ids, each kept row is the first row of the
raw input with its id, and every raw id is still represented. -/
theorem fuzzy_match_dedups_inputs (w : Nat) (sstRaw directRaw : List Session) :
    (((fuzzy_match_sessions w sstRaw directRaw).sst_df.map
        (fun p => p.1.ga_session_id)).Nodup) ∧
    (((fuzzy_match_sessions w sstRaw directRaw).direct_df.map
        (fun p => p.1.ga_session_id)).Nodup) ∧
    (∀ p ∈ (fuzzy_match_sessions w sstRaw directRaw).sst_df,
      sstRaw.find? (fun t => t.ga_session_id == p.1.ga_session_id) = some p.1) ∧
    (∀ p ∈ (fuzzy_match_sessions w sstRaw directRaw).direct_df,
      directRaw.find? (fun t => t.ga_session_id == p.1.ga_session_id) = some p.1) ∧
    (∀ t ∈ sstRaw, ∃ p ∈ (fuzzy_match_sessions w sstRaw directRaw).sst_df,
      p.1.ga_session_id = t.ga_session_id) ∧
    (∀ t ∈ directRaw, ∃ p ∈ (fuzzy_match_sessions w sstRaw directRaw).direct_df,
      p.1.ga_session_id = t.ga_session_id) := by
  have hinv := runMatch_inv (timeWindowMicros w) (dedupFirst sstRaw) (dedupFirst directRaw)
  rcases hinv with ⟨hfst, -, -, -, -, -, -⟩
  have hsfst : ((fuzzy_match_sessions w sstRaw directRaw).sst_df.map Prod.fst) =
      dedupFirst sstRaw := by
    rw [fuzzy_sst_df_eq]
    exact runMatch_sstFlags_fst _ _ _
  have hdfst : ((fuzzy_match_sessions w sstRaw directRaw).direct_df.map Prod.fst) =
      dedupFirst directRaw := by
    rw [fuzzy_direct_df_eq]
    exact hfst
  have hkey : ∀ (l : List (Session × Bool)) (D : List Session),
      l.map Prod.fst = D →
      (l.map (fun p => p.1.ga_session_id)) = D.map (fun t => t.ga_session_id) := by
    intro l D hD
    have : l.map (fun p => p.1.ga_session_id) =
        (l.map Prod.fst).map (fun t => t.ga_session_id) := by
      simp [List.map_map]
    rw [this, hD]
  refine ⟨?_, ?_, ?_, ?_, ?_, ?_⟩
  · rw [hkey _ _ hsfst]
    exact dedupFirstAux_nodup sstRaw []
  · rw [hkey _ _ hdfst]
    exact dedupFirstAux_nodup directRaw []
  · intro p hp
    have : p.1 ∈ dedupFirst sstRaw := by
      rw [← hsfst]
      exact List.mem_map_of_mem Prod.fst hp
    exact (dedupFirstAux_keeps_first sstRaw [] p.1 this).2
  · intro p hp
    have : p.1 ∈ dedupFirst directRaw := by
      rw [← hdfst]
      exact List.mem_map_of_mem Prod.fst hp
    exact (dedupFirstAux_keeps_first directRaw [] p.1 this).2
  · intro t ht
    rcases dedupFirstAux_complete sstRaw [] t ht with hc | ⟨s', hs', he⟩
    · cases hc
    · have : s' ∈ (fuzzy_match_sessions w sstRaw directRaw).sst_df.map Prod.fst := by
        rw [hsfst]; exact hs'
      rcases List.mem_map.mp this with ⟨p, hp, hpe⟩
      exact ⟨p, hp, by rw [hpe]; exact he⟩
  · intro t ht
    rcases dedupFirstAux_complete directRaw [] t ht with hc | ⟨s', hs', he⟩
    · cases hc
    · have : s' ∈ (fuzzy_match_sessions w sstRaw directRaw).direct_df.map Prod.fst := by
        rw [hdfst]; exact hs'
      rcases List.mem_map.mp this with ⟨p, hp, hpe⟩
      exact ⟨p, hp, by rw [hpe]; exact he⟩

/-! ## C9: the Athena aggregation and the min-timestamp attribute policy -/

theorem arbLast_valid : arbValid arbLast := by
  intro xs hne
  cases hrev : xs.reverse with
  | nil =>
    have : xs = [] := by simpa using congrArg List.reverse hrev
    cases hne this
  | cons a t =>
    have hval : arbLast xs = a := by simp [arbLast, hrev]
    have hmem : a ∈ xs.reverse := by rw [hrev]; exact List.mem_cons_self _ _
    rw [hval]
    simpa using hmem

theorem foldl_min_le (l : List RawEvent) :
    ∀ (a : Int), (l.foldl (fun m e => min m e.ts) a) ≤ a ∧
      ∀ e ∈ l, (l.foldl (fun m e => min m e.ts) a) ≤ e.ts := by
  induction l with
  | nil => intro a; exact ⟨le_refl _, fun e he => absurd he (List.not_mem_nil e)⟩
  | cons hd rest ih =>
    intro a
    rcases ih (min a hd.ts) with ⟨hle, hall⟩
    refine ⟨le_trans hle (min_le_left _ _), ?_⟩
    intro e he
    rcases List.mem_cons.mp he with he | he
    · subst he
      exact le_trans hle (min_le_right _ _)
    · exact hall e he

theorem foldl_min_mem (l : List RawEvent) :
    ∀ (a : Int), (l.foldl (fun m e => min m e.ts) a) = a ∨
      ∃ e ∈ l, (l.foldl (fun m e => min m e.ts) a) = e.ts := by
  induction l with
  | nil => intro a; exact Or.inl rfl
  | cons hd rest ih =>
    intro a
    simp only [List.foldl_cons]
    rcases ih (min a hd.ts) with hc | ⟨e, he, hee⟩
    · rcases min_choice a hd.ts with hm | hm
      · exact Or.inl (hc.trans hm)
      · exact Or.inr ⟨hd, List.mem_cons_self _ _, hc.trans hm⟩
    · exact Or.inr ⟨e, List.mem_cons_of_mem _ he, hee⟩

/-- `groupMinTs` is the minimum event timestamp of the group. -/
theorem groupMinTs_spec (e0 : RawEvent) (rest : List RawEvent) :
    (∀ e ∈ e0 :: rest, groupMinTs e0 rest ≤ e.ts) ∧
      ∃ e ∈ e0 :: rest, groupMinTs e0 rest = e.ts := by
  rcases foldl_min_le rest e0.ts with ⟨hle, hall⟩
  constructor
  · intro e he
    rcases List.mem_cons.mp he with he | he
    · subst he; exact hle
    · exact hall e he
  · rcases foldl_min_mem rest e0.ts with hc | ⟨e, he, hee⟩
    · exact ⟨e0, List.mem_cons_self _ _, hc⟩
    · exact ⟨e, List.mem_cons_of_mem _ he, hee⟩

/-- C9 (amended): what the two aggregation queries actually guarantee. For
the Athena (SST) query and every legal `ARBITRARY` choice function, the
session summary has `session_start_ts` equal to the minimum event timestamp
of the whole session group, while each scalar attribute is merely *some*
value occurring in the group — not necessarily the one of the
minimum-timestamp event. For the BigQuery (Direct) query, a result row is
built from one `(ga_session_id, attributes)` sub-group: its
`session_start_ts` is the minimum event timestamp of *that sub-group* (so
of some event of the session, an upper bound for the sub-group, but not
necessarily the session-wide minimum), and its attribute columns equal the
attributes of every event of the sub-group. -/
theorem session_agg_policy_amended
    (arb : List String → String) (e0 : RawEvent) (rest : List RawEvent)
    (harb : arbValid arb)
    (f0 : RawEvent) (fs : List RawEvent)
    (hgrp : ∀ f ∈ fs, f.ga_session_id = f0.ga_session_id ∧ bqKey f = bqKey f0) :
    (athenaSessionAgg arb e0 rest).session_start_ts = groupMinTs e0 rest ∧
    (∀ e ∈ e0 :: rest,
      (athenaSessionAgg arb e0 rest).session_start_ts ≤ e.ts) ∧
    (∃ e ∈ e0 :: rest,
      (athenaSessionAgg arb e0 rest).session_start_ts = e.ts) ∧
    (athenaSessionAgg arb e0 rest).device_category ∈
      (e0 :: rest).map (fun e => e.device_category) ∧
    (athenaSessionAgg arb e0 rest).device_operating_system ∈
      (e0 :: rest).map (fun e => e.device_operating_system) ∧
    (athenaSessionAgg arb e0 rest).device_browser ∈
      (e0 :: rest).map (fun e => e.device_browser) ∧
    (athenaSessionAgg arb e0 rest).geo_country ∈
      (e0 :: rest).map (fun e => e.geo_country) ∧
    (athenaSessionAgg arb e0 rest).traffic_source ∈
      (e0 :: rest).map (fun e => e.traffic_source) ∧
    (bqGroupAgg f0 fs).session_start_ts = groupMinTs f0 fs ∧
    (∀ f ∈ f0 :: fs, (bqGroupAgg f0 fs).session_start_ts ≤ f.ts) ∧
    (∃ f ∈ f0 :: fs, (bqGroupAgg f0 fs).session_start_ts = f.ts) ∧
    (∀ f ∈ f0 :: fs,
      (bqGroupAgg f0 fs).ga_session_id = f.ga_session_id ∧
      (bqGroupAgg f0 fs).device_category = f.device_category ∧
      (bqGroupAgg f0 fs).device_operating_system = f.device_operating_system ∧
      (bqGroupAgg f0 fs).device_browser = f.device_browser ∧
      (bqGroupAgg f0 fs).geo_country = f.geo_country ∧
      (bqGroupAgg f0 fs).traffic_source = f.traffic_source) := by
  rcases groupMinTs_spec e0 rest with ⟨hmin, hex⟩
  rcases groupMinTs_spec f0 fs with ⟨hbmin, hbex⟩
  refine ⟨rfl, hmin, hex, harb _ (by simp), harb _ (by simp), harb _ (by simp),
    harb _ (by simp), harb _ (by simp), rfl, hbmin, hbex, ?_⟩
  intro f hf
  rcases List.mem_cons.mp hf with hf | hf
  · subst hf
    exact ⟨rfl, rfl, rfl, rfl, rfl, rfl⟩
  · rcases hgrp f hf with ⟨hid, hkey⟩
    simp only [bqKey, Prod.mk.injEq] at hkey
    rcases hkey with ⟨h1, h2, h3, h4, h5⟩
    exact ⟨hid.symm, h1.symm, h2.symm, h3.symm, h4.symm, h5.symm⟩

/-- The two-event group used to separate `ARBITRARY` from the
minimum-timestamp policy: the earlier event is a desktop/Windows one, the
later a mobile/Android one. -/
def evEarly : RawEvent :=
  { ga_session_id := "s1", ts := 100, device_category := "desktop",
    device_operating_system := "Windows", device_browser := "Chrome",
    geo_country := "Australia", traffic_source := "google",
    event_name := "page_view", engagement_time_msec := 10 }

def evLate : RawEvent :=
  { ga_session_id := "s1", ts := 200, device_category := "mobile",
    device_operating_system := "Android", device_browser := "Safari",
    geo_country := "Australia", traffic_source := "google",
    event_name := "page_view", engagement_time_msec := 20 }

/-- C9 counterexample, both aggregation paths. Athena: under the legal
`ARBITRARY` behaviour `arbLast`, the aggregated `device_category` of the
group `[evEarly, evLate]` is `"mobile"`, while the earliest-event
policy of the spec yields `"desktop"`, even though `session_start_ts` is the
minimal timestamp of the group in both. BigQuery: the two events fall into
different `GROUP BY` sub-groups (their `bqKey` differs although the session
id is the same); when the warehouse returns the later sub-group first,
`drop_duplicates(keep=first)` keeps the summary whose `session_start_ts` is
200 — not the session-wide minimum 100. -/
theorem session_agg_policy_counterexample :
    arbValid arbLast ∧
    (athenaSessionAgg arbLast evEarly [evLate]).session_start_ts =
      (specEarliestEvent evEarly [evLate]).ts ∧
    (athenaSessionAgg arbLast evEarly [evLate]).device_category = "mobile" ∧
    (specEarliestEvent evEarly [evLate]).device_category = "desktop" ∧
    (athenaSessionAgg arbLast evEarly [evLate]).device_category ≠
      (specEarliestEvent evEarly [evLate]).device_category ∧
    evLate.ga_session_id = evEarly.ga_session_id ∧
    bqKey evLate ≠ bqKey evEarly ∧
    dedupFirst [bqGroupAgg evLate [], bqGroupAgg evEarly []] =
      [bqGroupAgg evLate []] ∧
    (bqGroupAgg evLate []).session_start_ts = 200 ∧
    groupMinTs evEarly [evLate] = 100 ∧
    (bqGroupAgg evLate []).session_start_ts ≠ groupMinTs evEarly [evLate] := by
  refine ⟨arbLast_valid, ?_, ?_, ?_, ?_, ?_, ?_, ?_, ?_, ?_, ?_⟩ <;> decide

/-! ## Concrete data for evaluation and witnesses -/

/-- Convenience constructor for concrete session rows. -/
def sampleSession (id : String) (ts : Int) (dev cty : String) : Session :=
  { ga_session_id := id, session_start_ts := ts, device_category := dev,
    device_operating_system := "Windows", device_browser := "Chrome",
    geo_country := cty, traffic_source := "google", event_count := 1,
    has_purchase := false, engagement_time_msec := 1000 }

def scA1 : Session := sampleSession "1" 1000000000 "desktop" "Australia"
def scA2 : Session := sampleSession "2" 5000000000 "mobile" "Australia"
def scB1 : Session := sampleSession "101" 1003000000 "desktop" "Australia"
def scB2 : Session := sampleSession "102" 9000000000 "desktop" "NewZealand"

/-! ## C5: empty categories make every profile ratio NaN -/

/-- C5 (evaluation): with an empty SST frame, the SST-only category is empty
and `get_corrected_session_stats` computes every one of its five profile
metrics as `0/0` (numpy) or the mean of an empty series (pandas), i.e. NaN —
not `0` and not an explicit undefined marker. -/
theorem empty_category_profile_yields_nan :
    (get_corrected_session_stats []
        [sampleSession "d1" 0 "desktop" "Australia"]).profile_sst_only =
      ⟨.nan, .nan, .nan, .nan, .nan⟩ ∧
    (get_corrected_session_stats []
        [sampleSession "d1" 0 "desktop" "Australia"]).profile_sst_only.desktop_pct ≠
      PyFloat.val 0 := by
  constructor <;> decide

/-! ## C6: the daily table is not dense over the query span -/

def dayGap1 : Session := sampleSession "g1" 0 "desktop" "Australia"
def dayGap2 : Session := sampleSession "g2" 172800000000 "desktop" "Australia"

/-- C6 (evaluation): for Direct sessions on epoch days 0 and 2 and no
session on day 1, the daily table of `get_corrected_session_stats` has rows
only for days 0 and 2 — the in-range day 1 gets no zero-count row.
(The returned dictionary moreover contains no hourly table at all.) -/
theorem daily_table_skips_empty_date :
    (get_corrected_session_stats [] [dayGap1, dayGap2]).daily =
      [(0, 0, 1, 0), (2, 0, 1, 0)] ∧
    ((get_corrected_session_stats [] [dayGap1, dayGap2]).daily.map
      (fun r => r.1)) = [0, 2] ∧
    (1 : Int) ∉ ((get_corrected_session_stats [] [dayGap1, dayGap2]).daily.map
      (fun r => r.1)) := by
  refine ⟨?_, ?_, ?_⟩ <;> decide

/-! ## Witnesses -/

/-- Witness for the pair contract: the §8 scenario of the spec, where SST session
"1" is matched to Direct session "101". -/
theorem fuzzy_match_pair_contract_witness :
    ("1", "101") ∈ (fuzzy_match_sessions 300 [scA1, scA2] [scB1, scB2]).both ∧
    (∃ s' ∈ dedupFirst [scA1, scA2], ∃ d' ∈ dedupFirst [scB1, scB2],
      (("1", "101") : String × String) = (s'.ga_session_id, d'.ga_session_id) ∧
      |d'.session_start_ts - s'.session_start_ts| ≤ ((300 : Nat) : Int) * 1000000 ∧
      d'.device_category = s'.device_category ∧
      d'.geo_country = s'.geo_country) :=
  ⟨by decide,
    fuzzy_match_pair_contract 300 [scA1, scA2] [scB1, scB2] ("1", "101") (by decide)⟩

def wSt : MState :=
  ⟨[(sampleSession "d1" 2000 "desktop" "Australia", false),
    (sampleSession "d2" 0 "desktop" "Australia", false)], [], []⟩

def wS : Session := sampleSession "x" 1000 "desktop" "Australia"

/-- Witness for the greedy-selection theorem: two unmatched candidates with
equal `ts_diff = 1000`; the loop records the first one. -/
theorem matcher_picks_min_delta_witness :
    (∃ dm ∈ wSt.direct, isCandidate 300000000 wS dm = true) ∧
    (∃ (i : Nat) (d : Session),
      bestCandidate 300000000 wS wSt.direct = some (i, d) ∧
      (matchStep 300000000 wSt wS).matchList =
        wSt.matchList ++ [(wS.ga_session_id, d.ga_session_id)] ∧
      wSt.direct[i]? = some (d, false) ∧
      isCandidate 300000000 wS (d, false) = true ∧
      (∀ (j : Nat) (dm : Session × Bool), wSt.direct[j]? = some dm →
        isCandidate 300000000 wS dm = true →
          tsDiff wS d ≤ tsDiff wS dm.1 ∧
            (tsDiff wS dm.1 ≤ tsDiff wS d → i ≤ j))) :=
  ⟨by decide, matcher_picks_min_delta 300000000 wSt wS (by decide)⟩

def exA : Session := sampleSession "x7" 5000000 "desktop" "Australia"
def exB : Session := sampleSession "y7" 5000000 "desktop" "Australia"

/-- Witness for window degeneracy: with `time_window = 0` two rows with the
same timestamp, device and country are matched, and the matched pair agrees
exactly on the three keys. -/
theorem fuzzy_match_window_zero_exact_witness :
    ("x7", "y7") ∈ (fuzzy_match_sessions 0 [exA] [exB]).both ∧
    (∃ s' ∈ dedupFirst [exA], ∃ d' ∈ dedupFirst [exB],
      (("x7", "y7") : String × String) = (s'.ga_session_id, d'.ga_session_id) ∧
      d'.session_start_ts = s'.session_start_ts ∧
      d'.device_category = s'.device_category ∧
      d'.geo_country = s'.geo_country) :=
  ⟨by decide,
    fuzzy_match_window_zero_exact [exA] [exB] ("x7", "y7") (by decide)⟩

/-- Witness for determinism at a concrete input. -/
theorem reconciliation_deterministic_witness :
    fuzzy_match_sessions 300 [scA1] [scB1] = fuzzy_match_sessions 300 [scA1] [scB1] ∧
    get_corrected_session_stats [scA1] [scB1] =
      get_corrected_session_stats [scA1] [scB1] :=
  reconciliation_deterministic 300 300 [scA1] [scA1] [scB1] [scB1] rfl rfl rfl

/-- A second event of the same BigQuery sub-group as `evEarly`: same session
id and same attribute key, later timestamp. -/
def evEarlySecond : RawEvent :=
  { ga_session_id := "s1", ts := 150, device_category := "desktop",
    device_operating_system := "Windows", device_browser := "Chrome",
    geo_country := "Australia", traffic_source := "google",
    event_name := "purchase", engagement_time_msec := 30 }

/-- Witness for the amended aggregation policy: the Athena part at the
two-event group and the `arbLast` choice function, the BigQuery part at the
sub-group `[evEarly, evEarlySecond]`. -/
theorem session_agg_policy_amended_witness :
    (athenaSessionAgg arbLast evEarly [evLate]).session_start_ts =
      groupMinTs evEarly [evLate] ∧
    (∀ e ∈ evEarly :: [evLate],
      (athenaSessionAgg arbLast evEarly [evLate]).session_start_ts ≤ e.ts) ∧
    (∃ e ∈ evEarly :: [evLate],
      (athenaSessionAgg arbLast evEarly [evLate]).session_start_ts = e.ts) ∧
    (athenaSessionAgg arbLast evEarly [evLate]).device_category ∈
      (evEarly :: [evLate]).map (fun e => e.device_category) ∧
    (athenaSessionAgg arbLast evEarly [evLate]).device_operating_system ∈
      (evEarly :: [evLate]).map (fun e => e.device_operating_system) ∧
    (athenaSessionAgg arbLast evEarly [evLate]).device_browser ∈
      (evEarly :: [evLate]).map (fun e => e.device_browser) ∧
    (athenaSessionAgg arbLast evEarly [evLate]).geo_country ∈
      (evEarly :: [evLate]).map (fun e => e.geo_country) ∧
    (athenaSessionAgg arbLast evEarly [evLate]).traffic_source ∈
      (evEarly :: [evLate]).map (fun e => e.traffic_source) ∧
    (bqGroupAgg evEarly [evEarlySecond]).session_start_ts =
      groupMinTs evEarly [evEarlySecond] ∧
    (∀ f ∈ evEarly :: [evEarlySecond],
      (bqGroupAgg evEarly [evEarlySecond]).session_start_ts ≤ f.ts) ∧
    (∃ f ∈ evEarly :: [evEarlySecond],
      (bqGroupAgg evEarly [evEarlySecond]).session_start_ts = f.ts) ∧
    (∀ f ∈ evEarly :: [evEarlySecond],
      (bqGroupAgg evEarly [evEarlySecond]).ga_session_id = f.ga_session_id ∧
      (bqGroupAgg evEarly [evEarlySecond]).device_category = f.device_category ∧
      (bqGroupAgg evEarly [evEarlySecond]).device_operating_system =
        f.device_operating_system ∧
      (bqGroupAgg evEarly [evEarlySecond]).device_browser = f.device_browser ∧
      (bqGroupAgg evEarly [evEarlySecond]).geo_country = f.geo_country ∧
      (bqGroupAgg evEarly [evEarlySecond]).traffic_source = f.traffic_source) :=
  session_agg_policy_amended arbLast evEarly [evLate] arbLast_valid
    evEarly [evEarlySecond] (by decide)
